import Mathlib

/-!
Verification of the encrypted-column codec in
`src/surfsense_backend/app/utils/encryption.py` (SurfSense backend).

The module under verification derives a Fernet key from the application
secret (`get_encryption_key`), lazily constructs a process-wide `Fernet`
singleton (`get_fernet`), exposes `encrypt_value` / `decrypt_value` with a
graceful-degradation contract on decryption failure, and wraps these in a
SQLAlchemy `TypeDecorator` (`EncryptedString`).

Embedding choices:
- Python byte strings are `List Nat` (each element < 256), Python `str` is
  Lean `String`.
- `hashlib.sha256` and `base64.urlsafe_b64encode` are implemented
  concretely (FIPS 180-4 SHA-256, RFC 4648 URL-safe base64), so key
  derivation is a fully executable Lean function.
- The third-party `cryptography.fernet.Fernet` primitive is modelled as a
  structure `FernetModel` packaging an encrypt/decrypt pair together with
  the library's documented contract (round trip, token expansion, distinct
  tokens for distinct nonces, and rejection of tampered tokens - the last
  being the idealised authenticated-encryption guarantee, i.e. we work in
  the standard ideal model with no hash collisions). The randomness drawn
  inside `Fernet.encrypt` (IV selection) is an explicit `Nat` parameter.
- Python exceptions are `Except PyErr`; the module-level `_fernet`
  singleton, `config.SECRET_KEY` and the `ENVIRONMENT` variable form an
  explicit state record `EncState` threaded through the functions.
-/

/-- Truncation to a 32-bit machine word. -/
def w32 (n : Nat) : Nat := n % 4294967296

/-- Right rotation of a 32-bit word. -/
def rotr32 (n x : Nat) : Nat := w32 ((x >>> n) ||| (x <<< (32 - n)))

/-- Bitwise complement of a 32-bit word. -/
def not32 (x : Nat) : Nat := 4294967295 - w32 x

/-- SHA-256 `Ch` function. -/
def shaCh (x y z : Nat) : Nat := (x &&& y) ^^^ (not32 x &&& z)

/-- SHA-256 `Maj` function. -/
def shaMaj (x y z : Nat) : Nat := (x &&& y) ^^^ (x &&& z) ^^^ (y &&& z)

/-- SHA-256 big sigma-0. -/
def shaS0 (x : Nat) : Nat := rotr32 2 x ^^^ rotr32 13 x ^^^ rotr32 22 x

/-- SHA-256 big sigma-1. -/
def shaS1 (x : Nat) : Nat := rotr32 6 x ^^^ rotr32 11 x ^^^ rotr32 25 x

/-- SHA-256 small sigma-0. -/
def shas0 (x : Nat) : Nat := rotr32 7 x ^^^ rotr32 18 x ^^^ (x >>> 3)

/-- SHA-256 small sigma-1. -/
def shas1 (x : Nat) : Nat := rotr32 17 x ^^^ rotr32 19 x ^^^ (x >>> 10)

/-- The 64 SHA-256 round constants. -/
def shaK : List Nat :=
  [1116352408, 1899447441, 3049323471, 3921009573, 961987163, 1508970993,
   2453635748, 2870763221, 3624381080, 310598401, 607225278, 1426881987,
   1925078388, 2162078206, 2614888103, 3248222580, 3835390401, 4022224774,
   264347078, 604807628, 770255983, 1249150122, 1555081692, 1996064986,
   2554220882, 2821834349, 2952996808, 3210313671, 3336571891, 3584528711,
   113926993, 338241895, 666307205, 773529912, 1294757372, 1396182291,
   1695183700, 1986661051, 2177026350, 2456956037, 2730485921, 2820302411,
   3259730800, 3345764771, 3516065817, 3600352804, 4094571909, 275423344,
   430227734, 506948616, 659060556, 883997877, 958139571, 1322822218,
   1537002063, 1747873779, 1955562222, 2024104815, 2227730452, 2361852424,
   2428436474, 2756734187, 3204031479, 3329325298]

/-- Working state of the SHA-256 compression function: eight 32-bit words. -/
structure ShaState where
  a : Nat
  b : Nat
  c : Nat
  d : Nat
  e : Nat
  f : Nat
  g : Nat
  h : Nat
deriving Repr, DecidableEq

/-- Initial SHA-256 hash value (FIPS 180-4 section 5.3.3). -/
def shaInit : ShaState :=
  ⟨1779033703, 3144134277, 1013904242, 2773480762,
   1359893119, 2600822924, 528734635, 1541459225⟩

/-- One round of the SHA-256 compression function. -/
def shaRound (st : ShaState) (kt wt : Nat) : ShaState :=
  let t1 := w32 (st.h + shaS1 st.e + shaCh st.e st.f st.g + kt + wt)
  let t2 := w32 (shaS0 st.a + shaMaj st.a st.b st.c)
  ⟨w32 (t1 + t2), st.a, st.b, st.c, w32 (st.d + t1), st.e, st.f, st.g⟩

/-- Componentwise 32-bit addition of two states. -/
def shaAdd (x y : ShaState) : ShaState :=
  ⟨w32 (x.a + y.a), w32 (x.b + y.b), w32 (x.c + y.c), w32 (x.d + y.d),
   w32 (x.e + y.e), w32 (x.f + y.f), w32 (x.g + y.g), w32 (x.h + y.h)⟩

/-- Big-endian 32-bit words from a byte list (4 bytes per word). -/
def bytesToWords : List Nat → List Nat
  | b0 :: b1 :: b2 :: b3 :: rest =>
      (b0 * 16777216 + b1 * 65536 + b2 * 256 + b3) :: bytesToWords rest
  | _ => []

/-- Extend the 16-word message schedule by `k` further words. -/
def shaExtend (ws : List Nat) : Nat → List Nat
  | 0 => ws
  | k + 1 =>
      let n := ws.length
      shaExtend
        (ws ++ [w32 (shas1 (ws.getD (n - 2) 0) + ws.getD (n - 7) 0 +
                     shas0 (ws.getD (n - 15) 0) + ws.getD (n - 16) 0)]) k

/-- Process one 64-byte block: schedule, 64 rounds, Davies-Meyer addition. -/
def shaBlock (st : ShaState) (block : List Nat) : ShaState :=
  let ws := shaExtend (bytesToWords block) 48
  shaAdd st ((shaK.zip ws).foldl (fun s kw => shaRound s kw.1 kw.2) st)

/-- Big-endian 8-byte encoding of a length in bits. -/
def lenBytes64 (n : Nat) : List Nat :=
  [n / 72057594037927936 % 256, n / 281474976710656 % 256,
   n / 1099511627776 % 256, n / 4294967296 % 256,
   n / 16777216 % 256, n / 65536 % 256, n / 256 % 256, n % 256]

/-- SHA-256 padding: append `128`, zero bytes, and the 64-bit bit length. -/
def shaPad (m : List Nat) : List Nat :=
  m ++ [128] ++ List.replicate ((119 - m.length % 64) % 64) 0
    ++ lenBytes64 (m.length * 8)

/-- Structural worker for `toBlocks`; the fuel bounds the number of blocks. -/
def toBlocksAux : Nat → List Nat → List (List Nat)
  | 0, _ => []
  | _, [] => []
  | fuel + 1, l => l.take 64 :: toBlocksAux fuel (l.drop 64)

/-- Split a byte list into 64-byte blocks. -/
def toBlocks (l : List Nat) : List (List Nat) := toBlocksAux l.length l

/-- Big-endian 4-byte encoding of a 32-bit word. -/
def wordBytes (n : Nat) : List Nat :=
  [n / 16777216 % 256, n / 65536 % 256, n / 256 % 256, n % 256]

/-- SHA-256 of a byte list (models `hashlib.sha256(m).digest()`). -/
def sha256 (m : List Nat) : List Nat :=
  let fin := ((toBlocks (shaPad m)).foldl shaBlock shaInit)
  wordBytes fin.a ++ wordBytes fin.b ++ wordBytes fin.c ++ wordBytes fin.d ++
  wordBytes fin.e ++ wordBytes fin.f ++ wordBytes fin.g ++ wordBytes fin.h

/-- UTF-8 encoding of one character (code point to 1-4 bytes). -/
def utf8EncodeChar (ch : Char) : List Nat :=
  let n := ch.toNat
  if n < 128 then [n]
  else if n < 2048 then [192 + n / 64, 128 + n % 64]
  else if n < 65536 then [224 + n / 4096, 128 + n / 64 % 64, 128 + n % 64]
  else [240 + n / 262144, 128 + n / 4096 % 64, 128 + n / 64 % 64, 128 + n % 64]

/-- UTF-8 encoding of a string (models Python `str.encode()`). -/
def utf8Encode (s : String) : List Nat := (s.data.map utf8EncodeChar).flatten

/-- The URL-safe base64 alphabet of RFC 4648 (`-` and `_` in place of `+`, `/`). -/
def b64urlAlphabet : List Char :=
  "ABCDEFGHIJKLMNOPQRSTUVWXYZabcdefghijklmnopqrstuvwxyz0123456789-_".data

/-- Character for one 6-bit group. -/
def b64char (n : Nat) : Char := b64urlAlphabet.getD n '?'

/-- URL-safe base64 encoding of a byte list with `=` padding
(models `base64.urlsafe_b64encode`, output as characters of the ASCII result). -/
def urlsafeB64encode : List Nat → List Char
  | [] => []
  | [a] => [b64char (a / 4), b64char (a % 4 * 16), '=', '=']
  | [a, b] => [b64char (a / 4), b64char (a % 4 * 16 + b / 16), b64char (b % 16 * 4), '=']
  | a :: b :: c :: rest =>
      b64char (a / 4) :: b64char (a % 4 * 16 + b / 16) ::
      b64char (b % 16 * 4 + c / 64) :: b64char (c % 64) :: urlsafeB64encode rest

theorem sha256_abc :
    sha256 (utf8Encode "abc") =
      [186, 120, 22, 191, 143, 1, 207, 234,
       65, 65, 64, 222, 93, 174, 34, 35,
       176, 3, 97, 163, 150, 23, 122, 156,
       180, 16, 255, 97, 242, 0, 21, 173] := by decide

/-- Character of a string at byte/character position `i` (Fernet tokens are
ASCII, so characters and bytes coincide there). -/
def charAtPos (s : String) (i : Nat) : Char := s.data.getD i 'A'

/-- The string `s` with the character at position `i` replaced by `c`:
the "mutate one byte" operation of the tamper-detection property. -/
def setCharAt (s : String) (i : Nat) (c : Char) : String := ⟨s.data.set i c⟩

/-- Model of a `cryptography.fernet.Fernet` object. `encrypt r p` models
`f.encrypt(p.encode()).decode()` where `r` is the randomness (IV) drawn
inside the library for this call; `decrypt t` models
`f.decrypt(t.encode()).decode()`, with `none` standing for the
`InvalidToken` exception (or a decode error). The four laws are the
library's documented contract, the last in the idealised form (no SHA-256
HMAC collisions): a Fernet token authenticates every byte, so changing any
single character of a genuine token makes `decrypt` reject it. -/
structure FernetModel where
  encrypt : Nat → String → String
  decrypt : String → Option String
  decrypt_encrypt : ∀ r p, decrypt (encrypt r p) = some p
  encrypt_expands : ∀ r p, p.length < (encrypt r p).length
  encrypt_nonce_ne : ∀ r₁ r₂ p, r₁ ≠ r₂ → encrypt r₁ p ≠ encrypt r₂ p
  decrypt_tampered : ∀ r p i c, i < (encrypt r p).length →
    c ≠ charAtPos (encrypt r p) i → decrypt (setCharAt (encrypt r p) i c) = none

/-- Python exceptions that the module can raise. -/
inductive PyErr where
  | valueError (msg : String)
  | invalidToken
deriving Repr, DecidableEq

/-- State read and mutated by the module: `config.SECRET_KEY` (an unset or
empty secret both collapse to `""`, which is what the code's falsiness test
`if not secret` checks), the `ENVIRONMENT` variable (`none` when unset, as
read by `os.getenv("ENVIRONMENT", "development")`), and the module-level
`_fernet` singleton. -/
structure EncState where
  secretKey : String
  environment : Option String
  fernetCache : Option FernetModel

/-- Shallow embedding of `get_encryption_key`: fail with `ValueError` when
the secret is falsy in production, substitute the fixed development
fallback secret when falsy elsewhere, then return
`base64.urlsafe_b64encode(hashlib.sha256(secret.encode()).digest())`. -/
def get_encryption_key (st : EncState) : Except PyErr (List Char) :=
  let secret := st.secretKey
  if secret = "" then
    if (st.environment.getD "development") = "production" then
      .error (PyErr.valueError "SECRET_KEY must be set in production")
    else
      .ok (urlsafeB64encode (sha256 (utf8Encode
        "default-insecure-secret-key-for-dev")))
  else
    .ok (urlsafeB64encode (sha256 (utf8Encode secret)))

/-- Shallow embedding of `get_fernet`: return the cached `_fernet` if set,
otherwise construct `Fernet(get_encryption_key())` and cache it. The
`Fernet` constructor itself is the parameter `mk` (it accepts every key
`get_encryption_key` can produce, since those are valid 32-byte URL-safe
base64 keys). Returns the object together with the updated state. -/
def get_fernet (mk : List Char → FernetModel) (st : EncState) :
    Except PyErr (FernetModel × EncState) :=
  match st.fernetCache with
  | some f => .ok (f, st)
  | none =>
      match get_encryption_key st with
      | .error e => .error e
      | .ok key =>
          let f := mk key
          .ok (f, { st with fernetCache := some f })

/-- Shallow embedding of `encrypt_value`: empty strings bypass the cipher,
otherwise `get_fernet().encrypt(value.encode()).decode()`. Exceptions
propagate (`Except.error`). `r` is the randomness consumed by this call. -/
def encrypt_value (mk : List Char → FernetModel) (r : Nat) (st : EncState)
    (value : String) : Except PyErr (String × EncState) :=
  if value = "" then .ok (value, st)
  else
    match get_fernet mk st with
    | .error e => .error e
    | .ok (f, st') => .ok (f.encrypt r value, st')

/-- The body of the `try` block of `decrypt_value`: obtain the singleton
(which may raise, e.g. the production `ValueError`), then decrypt (which
may raise `InvalidToken`). State changes made before an exception persist. -/
def decrypt_value_try (mk : List Char → FernetModel) (st : EncState)
    (value : String) : Except PyErr String × EncState :=
  match get_fernet mk st with
  | .error e => (.error e, st)
  | .ok (f, st') =>
      match f.decrypt value with
      | some p => (.ok p, st')
      | none => (.error PyErr.invalidToken, st')

/-- Shallow embedding of `decrypt_value`: empty strings bypass the cipher;
otherwise run the `try` body and, on any exception, return the input
unchanged (the legacy/graceful-degradation `except` handler). Total: it
cannot raise. -/
def decrypt_value (mk : List Char → FernetModel) (st : EncState)
    (value : String) : String × EncState :=
  if value = "" then (value, st)
  else
    match decrypt_value_try mk st value with
    | (.ok p, st') => (p, st')
    | (.error _, st') => (value, st')

/-- Python values that can reach the `EncryptedString` hooks; `str()` is
`PyVal.toStr`. -/
inductive PyVal where
  | str (s : String)
  | int (n : Int)
  | bool (b : Bool)
deriving Repr, DecidableEq

/-- Models Python `str()` on the embedded values. -/
def PyVal.toStr : PyVal → String
  | .str s => s
  | .int n => toString n
  | .bool b => if b then "True" else "False"

namespace EncryptedString

/-- Shallow embedding of `EncryptedString.process_bind_param`: encrypt
`str(value)` for non-null values, pass `None` through. -/
def process_bind_param (mk : List Char → FernetModel) (r : Nat)
    (st : EncState) (value : Option PyVal) :
    Except PyErr (Option String × EncState) :=
  match value with
  | some v =>
      match encrypt_value mk r st v.toStr with
      | .ok (s, st') => .ok (some s, st')
      | .error e => .error e
  | none => .ok (none, st)

/-- Shallow embedding of `EncryptedString.process_result_value`: decrypt
`str(value)` for non-null values, pass `None` through. Total, since
`decrypt_value` is. -/
def process_result_value (mk : List Char → FernetModel) (st : EncState)
    (value : Option PyVal) : Option String × EncState :=
  match value with
  | some v =>
      let (p, st') := decrypt_value mk st v.toStr
      (some p, st')
  | none => (none, st)

end EncryptedString

/-! A concrete instance of `FernetModel`, used to instantiate the theorems
below at computable inputs. It encodes the nonce in unary followed by a
separator and the plaintext, and duplicates that payload; duplication makes
every single-character mutation of a token detectable, so the instance
satisfies the tamper-rejection law exactly. -/

/-- Payload of the toy scheme: unary nonce, separator, plaintext. -/
def toyEncode (r : Nat) (p : List Char) : List Char :=
  List.replicate r 'x' ++ ',' :: p

/-- Toy token: the payload twice. -/
def toyEncL (r : Nat) (p : List Char) : List Char := toyEncode r p ++ toyEncode r p

/-- Inverse of `toyEncode`. -/
def toyParse : List Char → Option (Nat × List Char)
  | [] => none
  | c :: rest =>
      if c = ',' then some (0, rest)
      else if c = 'x' then (toyParse rest).map (fun q => (q.1 + 1, q.2))
      else none

/-- Toy decryption: check the two halves agree, then parse one. -/
def toyDecL (t : List Char) : Option (List Char) :=
  if t.length % 2 = 0 then
    if t.take (t.length / 2) = t.drop (t.length / 2) then
      (toyParse (t.take (t.length / 2))).map Prod.snd
    else none
  else none

/-- Toy `Fernet.encrypt` on strings. -/
def toyEncrypt (r : Nat) (p : String) : String := ⟨toyEncL r p.data⟩

/-- Toy `Fernet.decrypt` on strings. -/
def toyDecrypt (t : String) : Option String := (toyDecL t.data).map String.mk

theorem toyParse_toyEncode (r : Nat) (p : List Char) :
    toyParse (toyEncode r p) = some (r, p) := by
  induction r with
  | zero => simp [toyEncode, toyParse]
  | succ k ih => simp [toyEncode, List.replicate_succ, toyParse] at ih ⊢; simpa using ih

theorem toyEncode_length (r : Nat) (p : List Char) :
    (toyEncode r p).length = r + 1 + p.length := by
  simp [toyEncode]; omega

theorem toyDecL_toyEncL (r : Nat) (p : List Char) :
    toyDecL (toyEncL r p) = some p := by
  unfold toyDecL toyEncL
  rw [List.length_append]
  have h2 : ((toyEncode r p).length + (toyEncode r p).length) % 2 = 0 := by omega
  have h3 : ((toyEncode r p).length + (toyEncode r p).length) / 2 =
      (toyEncode r p).length := by omega
  rw [if_pos h2, h3, List.take_left, List.drop_left, if_pos rfl, toyParse_toyEncode]
  rfl

theorem list_set_ne_of_ne (l : List Char) (i : Nat) (c : Char)
    (h : i < l.length) (hc : c ≠ l.getD i 'A') : l.set i c ≠ l := by
  intro heq
  have h2 : (l.set i c)[i]? = l[i]? := by rw [heq]
  rw [List.getElem?_set_self (by simpa using h), List.getElem?_eq_getElem h] at h2
  rw [List.getD_eq_getElem l 'A' h] at hc
  exact hc (Option.some.injEq _ _ ▸ h2 : c = l[i])

theorem toyDecL_set (r : Nat) (p : List Char) (i : Nat) (c : Char)
    (hi : i < (toyEncL r p).length) (hc : c ≠ (toyEncL r p).getD i 'A') :
    toyDecL ((toyEncL r p).set i c) = none := by
  unfold toyEncL at hi hc ⊢
  rw [List.length_append] at hi
  by_cases hlt : i < (toyEncode r p).length
  · rw [List.getD_eq_getElem?_getD] at hc
    simp only [List.getElem?_append, hlt, if_pos] at hc
    rw [← List.getD_eq_getElem?_getD] at hc
    rw [List.set_append_left _ _ hlt]
    unfold toyDecL
    rw [List.length_append, List.length_set]
    rw [if_pos (by omega)]
    have h3 : ((toyEncode r p).length + (toyEncode r p).length) / 2 =
        (toyEncode r p).length := by omega
    rw [h3]
    have htake : (((toyEncode r p).set i c) ++ toyEncode r p).take
        (toyEncode r p).length = (toyEncode r p).set i c := by
      conv_lhs => rw [show (toyEncode r p).length = ((toyEncode r p).set i c).length from
        (List.length_set _ _ _).symm]
      exact List.take_left _ _
    have hdrop : (((toyEncode r p).set i c) ++ toyEncode r p).drop
        (toyEncode r p).length = toyEncode r p := by
      conv_lhs => rw [show (toyEncode r p).length = ((toyEncode r p).set i c).length from
        (List.length_set _ _ _).symm]
      exact List.drop_left _ _
    rw [htake, hdrop, if_neg (list_set_ne_of_ne _ _ _ hlt hc)]
  · have hge : (toyEncode r p).length ≤ i := by omega
    rw [List.getD_eq_getElem?_getD] at hc
    rw [List.getElem?_append_right hge] at hc
    rw [← List.getD_eq_getElem?_getD] at hc
    rw [List.set_append_right _ _ hge]
    unfold toyDecL
    rw [List.length_append, List.length_set]
    rw [if_pos (by omega)]
    have h3 : ((toyEncode r p).length + (toyEncode r p).length) / 2 =
        (toyEncode r p).length := by omega
    rw [h3, List.take_left, List.drop_left]
    have hlt2 : i - (toyEncode r p).length < (toyEncode r p).length := by omega
    exact if_neg (fun h => (list_set_ne_of_ne _ _ _ hlt2 hc) h.symm)

theorem string_mk_data (s : String) : String.mk s.data = s := by cases s; rfl

/-- The toy scheme satisfies the full Fernet contract. -/
def toyFernet : FernetModel where
  encrypt := toyEncrypt
  decrypt := toyDecrypt
  decrypt_encrypt := by
    intro r p
    show (toyDecL (toyEncL r p.data)).map String.mk = some p
    rw [toyDecL_toyEncL]
    simp [string_mk_data]
  encrypt_expands := by
    intro r p
    show p.data.length < (toyEncL r p.data).length
    unfold toyEncL
    rw [List.length_append, toyEncode_length]
    omega
  encrypt_nonce_ne := by
    intro r₁ r₂ p hne heq
    have h := congrArg String.length heq
    show False
    have h1 : (toyEncrypt r₁ p).length = (toyEncL r₁ p.data).length := rfl
    have h2 : (toyEncrypt r₂ p).length = (toyEncL r₂ p.data).length := rfl
    rw [h1, h2] at h
    unfold toyEncL at h
    rw [List.length_append, List.length_append, toyEncode_length, toyEncode_length] at h
    omega
  decrypt_tampered := by
    intro r p i c hi hc
    show (toyDecL ((toyEncL r p.data).set i c)).map String.mk = none
    rw [toyDecL_set r p.data i c hi hc]
    rfl

/-- A `Fernet` constructor for the theorems' witnesses: every key yields the
toy instance. -/
def toyMk : List Char → FernetModel := fun _ => toyFernet

/-! Helper lemmas about the embedded module functions. -/

theorem get_fernet_cache (mk : List Char → FernetModel) (st : EncState)
    (f : FernetModel) (st' : EncState)
    (h : get_fernet mk st = .ok (f, st')) : st'.fernetCache = some f := by
  unfold get_fernet at h
  cases hc : st.fernetCache with
  | some g =>
      rw [hc] at h
      cases h
      rw [hc]
  | none =>
      rw [hc] at h
      cases hk : get_encryption_key st with
      | error e => rw [hk] at h; cases h
      | ok key => rw [hk] at h; cases h; rfl

theorem get_fernet_cached (mk : List Char → FernetModel) (st : EncState)
    (f : FernetModel) (h : st.fernetCache = some f) :
    get_fernet mk st = .ok (f, st) := by
  unfold get_fernet
  rw [h]

theorem encrypt_value_ok (mk : List Char → FernetModel) (r : Nat)
    (st : EncState) (v C : String) (st' : EncState) (hv : v ≠ "")
    (h : encrypt_value mk r st v = .ok (C, st')) :
    ∃ f, get_fernet mk st = .ok (f, st') ∧ C = f.encrypt r v ∧
      st'.fernetCache = some f := by
  unfold encrypt_value at h
  rw [if_neg hv] at h
  cases hg : get_fernet mk st with
  | error e => rw [hg] at h; cases h
  | ok p =>
      obtain ⟨f, st₁⟩ := p
      rw [hg] at h
      cases h
      exact ⟨f, rfl, rfl, get_fernet_cache mk st f _ hg⟩

theorem string_length_pos_ne_empty (s : String) (h : 0 < s.length) : s ≠ "" := by
  intro he
  rw [he] at h
  simp at h

theorem decrypt_value_of_decrypt_some (mk : List Char → FernetModel)
    (st : EncState) (f : FernetModel) (v p : String)
    (hc : st.fernetCache = some f) (hd : f.decrypt v = some p) (hv : v ≠ "") :
    decrypt_value mk st v = (p, st) := by
  simp only [decrypt_value, decrypt_value_try, if_neg hv,
    get_fernet_cached mk st f hc, hd]

theorem decrypt_value_of_decrypt_none (mk : List Char → FernetModel)
    (st : EncState) (f : FernetModel) (v : String)
    (hc : st.fernetCache = some f) (hd : f.decrypt v = none) (hv : v ≠ "") :
    decrypt_value mk st v = (v, st) := by
  simp only [decrypt_value, decrypt_value_try, if_neg hv,
    get_fernet_cached mk st f hc, hd]

theorem encrypt_then_decrypt (mk : List Char → FernetModel) (r : Nat)
    (st : EncState) (v C : String) (st' : EncState)
    (h : encrypt_value mk r st v = .ok (C, st')) :
    decrypt_value mk st' C = (v, st') := by
  by_cases hv : v = ""
  · subst hv
    unfold encrypt_value at h
    rw [if_pos rfl] at h
    cases h
    rfl
  · obtain ⟨f, hg, hC, hcache⟩ := encrypt_value_ok mk r st v C st' hv h
    have hlen : v.length < C.length := hC ▸ f.encrypt_expands r v
    have hCne : C ≠ "" := string_length_pos_ne_empty C (by omega)
    have hdec : f.decrypt C = some v := hC ▸ f.decrypt_encrypt r v
    exact decrypt_value_of_decrypt_some mk st' f C v hcache hdec hCne

theorem sha256_length (m : List Nat) : (sha256 m).length = 32 := by
  simp [sha256, wordBytes]

/-! The claims. -/

/-- C1: for every non-empty plaintext string `P`, decrypting the result of
encrypting `P` with the same derived key (the same cipher singleton,
threaded through the state) yields `P` exactly:
`decrypt_value (encrypt_value P) = P`. -/
theorem c1_encrypt_decrypt_round_trip (mk : List Char → FernetModel) (r : Nat)
    (st : EncState) (P C : String) (st' : EncState) (_hP : P ≠ "")
    (henc : encrypt_value mk r st P = .ok (C, st')) :
    (decrypt_value mk st' C).1 = P := by
  rw [encrypt_then_decrypt mk r st P C st' henc]

theorem c1_witness :
    (decrypt_value toyMk ⟨"test-secret-key", none, some toyFernet⟩
      ",hello,hello").1 = "hello" :=
  c1_encrypt_decrypt_round_trip toyMk 0 ⟨"test-secret-key", none, none⟩
    "hello" ",hello,hello" ⟨"test-secret-key", none, some toyFernet⟩
    (by decide) rfl

/-- C2: for every input string `v` and every module state, `decrypt_value`
is total (it cannot raise): its result is either a successful decryption
produced inside the `try` block, or - whenever the value cannot be
decrypted for any reason, including a malformed token, a wrong key, an
authentication failure or a legacy unencrypted value - the input `v`
itself, unchanged. -/
theorem c2_decrypt_never_raises (mk : List Char → FernetModel)
    (st : EncState) (v : String) :
    (∃ p st', decrypt_value_try mk st v = (Except.ok p, st') ∧
        decrypt_value mk st v = (p, st'))
    ∨ (decrypt_value mk st v).1 = v := by
  by_cases hv : v = ""
  · right
    subst hv
    rfl
  · rcases htry : decrypt_value_try mk st v with ⟨res, st'⟩
    cases res with
    | ok p =>
        left
        refine ⟨p, st', rfl, ?_⟩
        simp [decrypt_value, if_neg hv, htry]
    | error e =>
        right
        simp [decrypt_value, if_neg hv, htry]

/-- C3: the empty string bypasses the cipher entirely in both directions:
`encrypt_value "" = ""` and `decrypt_value "" = ""` (and neither touches
the state). -/
theorem c3_empty_string_identity (mk : List Char → FernetModel) (r : Nat)
    (st : EncState) :
    encrypt_value mk r st "" = .ok ("", st) ∧
    decrypt_value mk st "" = ("", st) :=
  ⟨rfl, rfl⟩

/-- C4: given a ciphertext `C` produced by encrypting a non-empty plaintext
`P`, mutating any single character of `C` yields a string that
`decrypt_value` does not decrypt back to `P` and does not raise on: the
authentication failure degrades to passthrough, so the mutated string
itself is returned. -/
theorem c4_tamper_passthrough (mk : List Char → FernetModel) (r : Nat)
    (st : EncState) (P C : String) (st' : EncState) (i : Nat) (c : Char)
    (hP : P ≠ "") (henc : encrypt_value mk r st P = .ok (C, st'))
    (hi : i < C.length) (hc : c ≠ charAtPos C i) :
    decrypt_value mk st' (setCharAt C i c) = (setCharAt C i c, st')
    ∧ setCharAt C i c ≠ P := by
  obtain ⟨f, hg, hC, hcache⟩ := encrypt_value_ok mk r st P C st' hP henc
  subst hC
  have hdec : f.decrypt (setCharAt (f.encrypt r P) i c) = none :=
    f.decrypt_tampered r P i c hi hc
  have hlen : (setCharAt (f.encrypt r P) i c).length = (f.encrypt r P).length := by
    show ((f.encrypt r P).data.set i c).length = (f.encrypt r P).data.length
    exact List.length_set _ _ _
  have hexp := f.encrypt_expands r P
  have hne : setCharAt (f.encrypt r P) i c ≠ "" :=
    string_length_pos_ne_empty _ (by omega)
  refine ⟨decrypt_value_of_decrypt_none mk st' f _ hcache hdec hne, ?_⟩
  intro heq
  have hlp := congrArg String.length heq
  omega

theorem c4_witness :
    decrypt_value toyMk ⟨"test-secret-key", none, some toyFernet⟩
      (setCharAt ",hello,hello" 1 'z') =
        (setCharAt ",hello,hello" 1 'z',
          ⟨"test-secret-key", none, some toyFernet⟩)
    ∧ setCharAt ",hello,hello" 1 'z' ≠ "hello" :=
  c4_tamper_passthrough toyMk 0 ⟨"test-secret-key", none, none⟩ "hello"
    ",hello,hello" ⟨"test-secret-key", none, some toyFernet⟩ 1 'z'
    (by decide) rfl (by decide) (by decide)

/-- C5: key derivation is the deterministic function taking the SHA-256
digest of the UTF-8 encoding of the secret and encoding it with the
URL-safe base64 alphabet; any two evaluations of `get_encryption_key` on
states carrying the same (non-empty) secret - in particular in independent
process instances - yield the identical key, derived from the 32-byte
digest. -/
theorem c5_key_derivation_deterministic (st₁ st₂ : EncState)
    (h : st₁.secretKey = st₂.secretKey) (hne : st₁.secretKey ≠ "") :
    get_encryption_key st₁ =
      .ok (urlsafeB64encode (sha256 (utf8Encode st₁.secretKey)))
    ∧ get_encryption_key st₁ = get_encryption_key st₂
    ∧ (sha256 (utf8Encode st₁.secretKey)).length = 32 := by
  have e1 : get_encryption_key st₁ =
      .ok (urlsafeB64encode (sha256 (utf8Encode st₁.secretKey))) := by
    unfold get_encryption_key
    rw [if_neg hne]
  have e2 : get_encryption_key st₂ =
      .ok (urlsafeB64encode (sha256 (utf8Encode st₂.secretKey))) := by
    unfold get_encryption_key
    rw [if_neg (h ▸ hne)]
  refine ⟨e1, ?_, sha256_length _⟩
  rw [e1, e2, h]

theorem c5_witness :
    get_encryption_key ⟨"test-secret-key", none, none⟩ =
      .ok (urlsafeB64encode (sha256 (utf8Encode "test-secret-key")))
    ∧ get_encryption_key ⟨"test-secret-key", none, none⟩ =
      get_encryption_key ⟨"test-secret-key", some "production", some toyFernet⟩
    ∧ (sha256 (utf8Encode "test-secret-key")).length = 32 :=
  c5_key_derivation_deterministic ⟨"test-secret-key", none, none⟩
    ⟨"test-secret-key", some "production", some toyFernet⟩ rfl (by decide)

/-- C6: if the configured secret is empty or missing, `get_encryption_key`
raises a `ValueError` when the deployment environment is marked
`production`, and otherwise substitutes the fixed publicly known fallback
secret and derives the key from it. -/
theorem c6_missing_secret_branches (st : EncState) (h : st.secretKey = "") :
    ((st.environment.getD "development") = "production" →
      get_encryption_key st =
        .error (PyErr.valueError "SECRET_KEY must be set in production"))
    ∧ ((st.environment.getD "development") ≠ "production" →
      get_encryption_key st =
        .ok (urlsafeB64encode (sha256 (utf8Encode
          "default-insecure-secret-key-for-dev")))) := by
  constructor
  · intro henv
    unfold get_encryption_key
    rw [if_pos h, if_pos henv]
  · intro henv
    unfold get_encryption_key
    rw [if_pos h, if_neg henv]

theorem c6_witness :
    get_encryption_key ⟨"", some "production", none⟩ =
      .error (PyErr.valueError "SECRET_KEY must be set in production")
    ∧ get_encryption_key ⟨"", none, none⟩ =
      .ok (urlsafeB64encode (sha256 (utf8Encode
        "default-insecure-secret-key-for-dev"))) :=
  ⟨(c6_missing_secret_branches ⟨"", some "production", none⟩ rfl).1 (by decide),
   (c6_missing_secret_branches ⟨"", none, none⟩ rfl).2 (by decide)⟩

/-- C7: the column codec applies `encrypt_value` to the `str()` coercion of
every non-null value on the write path and `decrypt_value` on the read
path, and passes a null value through unchanged in both directions, so
null is never handed to `encrypt_value` or `decrypt_value`. -/
theorem c7_codec_hooks (mk : List Char → FernetModel) (r : Nat)
    (st : EncState) :
    EncryptedString.process_bind_param mk r st none = .ok (none, st)
    ∧ EncryptedString.process_result_value mk st none = (none, st)
    ∧ ∀ v : PyVal,
        EncryptedString.process_bind_param mk r st (some v) =
          Except.map (fun q => (some q.1, q.2)) (encrypt_value mk r st v.toStr)
        ∧ EncryptedString.process_result_value mk st (some v) =
          (some (decrypt_value mk st v.toStr).1,
           (decrypt_value mk st v.toStr).2) := by
  refine ⟨rfl, rfl, fun v => ⟨?_, ?_⟩⟩
  · cases h : encrypt_value mk r st v.toStr with
    | error e => simp [EncryptedString.process_bind_param, h, Except.map]
    | ok q =>
        obtain ⟨s, st₁⟩ := q
        simp [EncryptedString.process_bind_param, h, Except.map]
  · rcases hd : decrypt_value mk st v.toStr with ⟨p, st₁⟩
    simp [EncryptedString.process_result_value, hd]

/-- C8: encryption is non-deterministic in the sense that two successive
calls to `encrypt_value` on the same fixed non-empty plaintext that draw
distinct random nonces produce different ciphertext strings. -/
theorem c8_encrypt_nondeterministic (mk : List Char → FernetModel)
    (r₁ r₂ : Nat) (st : EncState) (P C₁ C₂ : String) (st₁ st₂ : EncState)
    (hP : P ≠ "") (hr : r₁ ≠ r₂)
    (h₁ : encrypt_value mk r₁ st P = .ok (C₁, st₁))
    (h₂ : encrypt_value mk r₂ st₁ P = .ok (C₂, st₂)) :
    C₁ ≠ C₂ := by
  obtain ⟨f, hg₁, hC₁, hcache₁⟩ := encrypt_value_ok mk r₁ st P C₁ st₁ hP h₁
  obtain ⟨f₂, hg₂, hC₂, hcache₂⟩ := encrypt_value_ok mk r₂ st₁ P C₂ st₂ hP h₂
  have hf : f₂ = f := by
    have hcached := get_fernet_cached mk st₁ f hcache₁
    rw [hcached] at hg₂
    cases hg₂
    rfl
  rw [hC₁, hC₂, hf]
  exact f.encrypt_nonce_ne r₁ r₂ P hr

theorem c8_witness : (",hello,hello" : String) ≠ "x,hellox,hello" :=
  c8_encrypt_nondeterministic toyMk 0 1 ⟨"test-secret-key", none, none⟩
    "hello" ",hello,hello" "x,hellox,hello"
    ⟨"test-secret-key", none, some toyFernet⟩
    ⟨"test-secret-key", none, some toyFernet⟩
    (by decide) (by decide) rfl rfl

/-- C9: when the secret is missing in a production deployment and the
cipher singleton is not yet initialised, `decrypt_value` swallows the
`ValueError` raised inside `get_encryption_key` and returns its input
unchanged, while `encrypt_value` propagates that configuration error. -/
theorem c9_prod_error_swallowed (mk : List Char → FernetModel) (r : Nat)
    (st : EncState) (v : String) (hv : v ≠ "") (hsk : st.secretKey = "")
    (henv : st.environment.getD "development" = "production")
    (hcache : st.fernetCache = none) :
    decrypt_value mk st v = (v, st)
    ∧ encrypt_value mk r st v =
        .error (PyErr.valueError "SECRET_KEY must be set in production") := by
  have hkey : get_encryption_key st =
      .error (PyErr.valueError "SECRET_KEY must be set in production") := by
    unfold get_encryption_key
    rw [if_pos hsk, if_pos henv]
  have hgf : get_fernet mk st =
      .error (PyErr.valueError "SECRET_KEY must be set in production") := by
    unfold get_fernet
    rw [hcache, hkey]
  constructor
  · simp [decrypt_value, decrypt_value_try, if_neg hv, hgf]
  · simp [encrypt_value, if_neg hv, hgf]

theorem c9_witness :
    decrypt_value toyMk ⟨"", some "production", none⟩ "legacy-token" =
      ("legacy-token", ⟨"", some "production", none⟩)
    ∧ encrypt_value toyMk 0 ⟨"", some "production", none⟩ "legacy-token" =
        .error (PyErr.valueError "SECRET_KEY must be set in production") :=
  c9_prod_error_swallowed toyMk 0 ⟨"", some "production", none⟩
    "legacy-token" (by decide) rfl (by decide) rfl

/-- C10: the codec coerces a non-string value (here an integer) to a string
with `str()` before encrypting: writing `some (int n)` stores the
encryption of the decimal string of `n`, and reading that stored token
back returns the decimal string - a string, not the original integer. -/
theorem c10_str_coercion (mk : List Char → FernetModel) (r : Nat)
    (st : EncState) (n : Int) (C : String) (st' : EncState)
    (henc : EncryptedString.process_bind_param mk r st (some (PyVal.int n)) =
      .ok (some C, st')) :
    encrypt_value mk r st (toString n) = .ok (C, st')
    ∧ EncryptedString.process_result_value mk st' (some (PyVal.str C)) =
        (some (toString n), st') := by
  simp only [EncryptedString.process_bind_param] at henc
  cases he : encrypt_value mk r st (PyVal.int n).toStr with
  | error e =>
      rw [he] at henc
      cases henc
  | ok q =>
      obtain ⟨s, st₁⟩ := q
      rw [he] at henc
      cases henc
      have he' : encrypt_value mk r st (toString n) = .ok (C, st') := he
      have hdec := encrypt_then_decrypt mk r st (toString n) C st' he'
      refine ⟨he', ?_⟩
      show (some (decrypt_value mk st' C).1, (decrypt_value mk st' C).2) =
        (some (toString n), st')
      rw [hdec]

theorem c10_witness :
    encrypt_value toyMk 0 ⟨"test-secret-key", none, none⟩
        (toString (42 : Int)) =
      .ok (",42,42", ⟨"test-secret-key", none, some toyFernet⟩)
    ∧ EncryptedString.process_result_value toyMk
        ⟨"test-secret-key", none, some toyFernet⟩ (some (PyVal.str ",42,42")) =
      (some (toString (42 : Int)), ⟨"test-secret-key", none, some toyFernet⟩) :=
  c10_str_coercion toyMk 0 ⟨"test-secret-key", none, none⟩ 42 ",42,42"
    ⟨"test-secret-key", none, some toyFernet⟩ rfl
